import Mathlib

/-!
Verification of the compact-jwt JWS engine (src/crypto.rs, src/error.rs).

The data model and the operations `sign_inner`, `validate`, `from_str`,
`to_string` (Display), `get_validator`, `private_key_to_der` and
`public_key_as_jwk` are embedded shallowly.  Bytes are `List Nat`.  The
base64url codec (URL_SAFE_NO_PAD, as used throughout crypto.rs) is
implemented concretely.  The JSON codec and the OpenSSL primitives are the
out-of-scope collaborators of the spec; they are modelled as an abstract
record of functions, `CryptoProvider`, with `Option`-valued results whose
`none` stands for the underlying call failing (mapped to `OpenSSLError` or
`InvalidHeaderFormat` exactly where crypto.rs maps them).
-/

/-- Cryptographic algorithm tag (crypto.rs `JwaAlg`). -/
inductive JwaAlg
  | ES256
  | RS256
  | HS256
deriving DecidableEq

/-- Valid elliptic curves (crypto.rs `EcCurve`). -/
inductive EcCurve
  | P256
deriving DecidableEq

/-- Key usage hint (crypto.rs `JwkUse`). -/
inductive JwkUse
  | Sig
  | Enc
deriving DecidableEq

/-- Raw byte strings (`Vec<u8>`, `Base64UrlSafeData`, DER certificates, URLs,
Rust `String`s: all modelled as byte lists). -/
abbrev Bytes := List Nat

/-- JWK formatted public key (crypto.rs `Jwk`). -/
inductive Jwk
  | EC (crv : EcCurve) (x : Bytes) (y : Bytes) (alg : Option JwaAlg)
      (use_ : Option JwkUse) (kid : Option Bytes)
  | RSA (n : Bytes) (e : Bytes) (alg : Option JwaAlg)
      (use_ : Option JwkUse) (kid : Option Bytes)
deriving DecidableEq

/-- The digest paired with every key (always SHA-256 in crypto.rs). -/
inductive MessageDigest
  | sha256
deriving DecidableEq

/-- The error enumeration the crypto.rs code requires.  NOTE: error.rs as
written declares only the first seven constructors; crypto.rs additionally
references `X5cPublicKeyDenied`, `PrivateKeyDenied` and `JwkPublicKeyDenied`
(lines 484, 825, 933), so the enumeration required by the code is the one
below.  `declaredInErrorRs` records which constructors error.rs declares. -/
inductive JwtError
  | InvalidCompactFormat
  | InvalidBase64
  | InvalidHeaderFormat
  | InvalidSignature
  | CriticalExtension
  | OpenSSLError
  | ValidatorAlgMismatch
  | X5cPublicKeyDenied
  | PrivateKeyDenied
  | JwkPublicKeyDenied
deriving DecidableEq

/-- Which error kinds the enum in error.rs (lines 4-12) actually declares. -/
def declaredInErrorRs : JwtError → Bool
  | .InvalidCompactFormat => true
  | .InvalidBase64 => true
  | .InvalidHeaderFormat => true
  | .InvalidSignature => true
  | .CriticalExtension => true
  | .OpenSSLError => true
  | .ValidatorAlgMismatch => true
  | .X5cPublicKeyDenied => false
  | .PrivateKeyDenied => false
  | .JwkPublicKeyDenied => false

/-- The variant names of `JwtError` as declared in error.rs, in order. -/
def errorRsVariants : List String :=
  [ "InvalidCompactFormat", "InvalidBase64", "InvalidHeaderFormat",
    "InvalidSignature", "CriticalExtension", "OpenSSLError",
    "ValidatorAlgMismatch" ]

/-- The error kinds listed by the spec (section 7): the nine named kinds plus
the single catch-all provider-failure kind, which crypto.rs calls
`OpenSSLError`. -/
def specErrorKinds : List String :=
  [ "InvalidCompactFormat", "InvalidBase64", "InvalidHeaderFormat",
    "InvalidSignature", "CriticalExtension", "ValidatorAlgMismatch",
    "X5cPublicKeyDenied", "PrivateKeyDenied", "JwkPublicKeyDenied",
    "OpenSSLError" ]

/-- The `JwtError::` variant names referenced by expressions in crypto.rs. -/
def cryptoRsErrorVariantsUsed : List String :=
  [ "InvalidHeaderFormat", "OpenSSLError", "X5cPublicKeyDenied",
    "InvalidSignature", "ValidatorAlgMismatch", "InvalidCompactFormat",
    "InvalidBase64", "CriticalExtension", "PrivateKeyDenied",
    "JwkPublicKeyDenied" ]

/-- JWS protected header (crypto.rs `ProtectedHeader`).  `x5u`, `x5t` and
`x5t_s256` are skip_deserializing: never populated on parse; carried as
`Option Unit`.  `x5c` certificates are opaque DER byte strings. -/
structure ProtectedHeader where
  alg : JwaAlg
  jku : Option Bytes
  jwk : Option Jwk
  kid : Option Bytes
  crit : Option (List Bytes)
  typ : Option Bytes
  cty : Option Bytes
  x5u : Option Unit
  x5c : Option (List Bytes)
  x5t : Option Unit
  x5t_s256 : Option Unit
deriving DecidableEq

/-- The narrowed header returned to callers (crypto.rs `Header`). -/
structure Header where
  kid : Option Bytes
  typ : Option Bytes
  cty : Option Bytes
deriving DecidableEq

/-- `impl From<&ProtectedHeader> for Header`. -/
def Header.ofProtected (phdr : ProtectedHeader) : Header :=
  { kid := phdr.kid, typ := phdr.typ, cty := phdr.cty }

/-- Signed compact object (crypto.rs `JwsCompact`). -/
structure JwsCompact where
  header : ProtectedHeader
  payload : Bytes
  sign_input : Bytes
  signature : Bytes
deriving DecidableEq

/-- Unsigned working object (crypto.rs `JwsInner`). -/
structure JwsInner where
  header : Header
  payload : Bytes
deriving DecidableEq

/-- Private signing key (crypto.rs `JwsSigner`); key material is an opaque
byte-string handle interpreted only by the provider. -/
inductive JwsSigner
  | ES256 (skey : Bytes) (digest : MessageDigest)
  | RS256 (skey : Bytes) (digest : MessageDigest)
  | HS256 (skey : Bytes) (digest : MessageDigest)
deriving DecidableEq

/-- Verification key (crypto.rs `JwsValidator`); the HS256 variant holds the
same private key material as the signer. -/
inductive JwsValidator
  | ES256 (pkey : Bytes) (digest : MessageDigest)
  | RS256 (pkey : Bytes) (digest : MessageDigest)
  | HS256 (skey : Bytes) (digest : MessageDigest)
deriving DecidableEq

/-- The algorithm family a validator variant belongs to. -/
def JwsValidator.variantAlg : JwsValidator → JwaAlg
  | .ES256 _ _ => .ES256
  | .RS256 _ _ => .RS256
  | .HS256 _ _ => .HS256

/-- base64url alphabet: value 0-63 to ASCII code (RFC 4648 URL-safe). -/
def b64Char (n : Nat) : Nat :=
  if n < 26 then 65 + n
  else if n < 52 then 97 + (n - 26)
  else if n < 62 then 48 + (n - 52)
  else if n = 62 then 45
  else 95

/-- base64url alphabet inverse: ASCII code to value, `none` off-alphabet. -/
def b64Val (c : Nat) : Option Nat :=
  if 65 ≤ c ∧ c ≤ 90 then some (c - 65)
  else if 97 ≤ c ∧ c ≤ 122 then some (c - 97 + 26)
  else if 48 ≤ c ∧ c ≤ 57 then some (c - 48 + 52)
  else if c = 45 then some 62
  else if c = 95 then some 63
  else none

/-- `base64::encode_config(_, URL_SAFE_NO_PAD)`: bytes to unpadded
base64url ASCII codes. -/
def b64urlEncode : Bytes → Bytes
  | [] => []
  | [a] => [b64Char (a / 4), b64Char (a % 4 * 16)]
  | [a, b] =>
      [b64Char (a / 4), b64Char (a % 4 * 16 + b / 16), b64Char (b % 16 * 4)]
  | a :: b :: c :: rest =>
      b64Char (a / 4) :: b64Char (a % 4 * 16 + b / 16) ::
        b64Char (b % 16 * 4 + c / 64) :: b64Char (c % 64) :: b64urlEncode rest

/-- `base64::decode_config(_, URL_SAFE_NO_PAD)`: unpadded base64url ASCII
codes to bytes; rejects off-alphabet symbols, length 1 mod 4, and non-zero
trailing bits (the crate's InvalidLastSymbol check). -/
def b64urlDecode : Bytes → Option Bytes
  | [] => some []
  | [_] => none
  | [c1, c2] =>
      match b64Val c1 with
      | none => none
      | some v1 =>
        match b64Val c2 with
        | none => none
        | some v2 =>
            if v2 % 16 = 0 then some [v1 * 4 + v2 / 16] else none
  | [c1, c2, c3] =>
      match b64Val c1 with
      | none => none
      | some v1 =>
        match b64Val c2 with
        | none => none
        | some v2 =>
          match b64Val c3 with
          | none => none
          | some v3 =>
              if v3 % 4 = 0 then
                some [v1 * 4 + v2 / 16, v2 % 16 * 16 + v3 / 4]
              else none
  | c1 :: c2 :: c3 :: c4 :: rest =>
      match b64Val c1 with
      | none => none
      | some v1 =>
        match b64Val c2 with
        | none => none
        | some v2 =>
          match b64Val c3 with
          | none => none
          | some v3 =>
            match b64Val c4 with
            | none => none
            | some v4 =>
              match b64urlDecode rest with
              | none => none
              | some tail =>
                  some ((v1 * 4 + v2 / 16) :: (v2 % 16 * 16 + v3 / 4) ::
                        (v3 % 4 * 64 + v4) :: tail)

/-- Number of occurrences of the byte 46, the ASCII code of the dot. -/
def dotCount : Bytes → Nat
  | [] => 0
  | c :: rest => (if c = 46 then 1 else 0) + dotCount rest

/-- Number of dot-separated segments of a string: dots plus one. -/
def segCount (s : Bytes) : Nat := dotCount s + 1

/-- One step of the `splitn` iterator: the piece before the first dot, and
the remainder after that dot when one exists. -/
def splitDotOnce : Bytes → Bytes × Option Bytes
  | [] => ([], none)
  | c :: rest =>
      if c = 46 then ([], some rest)
      else
        match splitDotOnce rest with
        | (pre, post) => (c :: pre, post)

/-- Rust `s.splitn(n, '.')`: at most `n` pieces, the last piece keeping any
remaining dots. -/
def splitnDot : Nat → Bytes → List Bytes
  | 0, _ => []
  | 1, s => [s]
  | n + 2, s =>
      match splitDotOnce s with
      | (pre, none) => [pre]
      | (pre, some rest) => pre :: splitnDot (n + 1) rest

/-- The first piece `from_str` draws from the `splitn(3, '.')` iterator. -/
def hdrPart (s : Bytes) : Bytes := (splitnDot 3 s).headI

/-- Rust `s.rsplit_once('.')`: the text before and after the last dot. -/
def rsplitOnceDot : Bytes → Option (Bytes × Bytes)
  | [] => none
  | c :: rest =>
      match rsplitOnceDot rest with
      | some (pre, post) => some (c :: pre, post)
      | none => if c = 46 then some ([], rest) else none

/-- The fixed-width left-zero-padded copy in the ES256 arms: a 32-byte
buffer of zeros whose tail is overwritten with `v` (requires
`v.length ≤ 32`, otherwise the Rust `split_at_mut` panics). -/
def padLeft32 (v : Bytes) : Bytes := List.replicate (32 - v.length) 0 ++ v

/-- The crit gate of `from_str`: `Some(crit)` with `!crit.is_empty()`. -/
def critNonEmpty : Option (List Bytes) → Bool
  | some crit => !crit.isEmpty
  | none => false

/-- The out-of-scope collaborators: serde_json on `ProtectedHeader`, and the
OpenSSL primitives.  Every `Option` result models the underlying fallible
call; `none` is the failure crypto.rs maps to an error kind at the call
site.  Chains of OpenSSL calls that crypto.rs maps uniformly to
`OpenSSLError` (key construction + padding setup + sign/verify) are
collapsed into one function each. -/
structure CryptoProvider where
  jsonEncodeHeader : ProtectedHeader → Option Bytes
  jsonDecodeHeader : Bytes → Option ProtectedHeader
  hash : MessageDigest → Bytes → Option Bytes
  ecdsaSign : Bytes → Bytes → Option (Bytes × Bytes)
  ecdsaVerify : Bytes → Bytes → Bytes → Bytes → Option Bool
  rsaSign : MessageDigest → Bytes → Bytes → Option Bytes
  rsaVerify : MessageDigest → Bytes → Bytes → Bytes → Option Bool
  hmacSign : MessageDigest → Bytes → Bytes → Option Bytes
  ecPublicOf : Bytes → Option Bytes
  rsaPublicOf : Bytes → Option Bytes
  ecPrivateKeyToDer : Bytes → Option Bytes
  rsaPrivateKeyToDer : Bytes → Option Bytes
  ecAffineCoordinates : Bytes → Option (Bytes × Bytes)
  rsaPublicComponentsPadded : Bytes → Option (Bytes × Bytes)

/-- crypto.rs `JwsInner::sign_inner`.  The outer `Option` models the Rust
panic in the ES256 fixed-width encoding when a component exceeds 32 bytes
(`split_at_mut(32 - r_vec.len())` underflows); `some` carries the
`Result`. -/
def JwsInner.sign_inner (self : JwsInner) (P : CryptoProvider)
    (signer : JwsSigner) (jku : Option Bytes) (jwk : Option Jwk) :
    Option (Except JwtError JwsCompact) :=
  let alg : JwaAlg :=
    match signer with
    | .ES256 _ _ => .ES256
    | .RS256 _ _ => .RS256
    | .HS256 _ _ => .HS256
  let header : ProtectedHeader :=
    { alg := alg, jku := jku, jwk := jwk, kid := self.header.kid,
      typ := self.header.typ, cty := self.header.cty, crit := none,
      x5u := none, x5c := none, x5t := none, x5t_s256 := none }
  let payload := self.payload
  match P.jsonEncodeHeader header with
  | none => some (.error .InvalidHeaderFormat)
  | some hdrBytes =>
    let hdr_b64 := b64urlEncode hdrBytes
    let payload_b64 := b64urlEncode self.payload
    let sign_input := hdr_b64 ++ 46 :: payload_b64
    match signer with
    | .ES256 skey digest =>
      match P.hash digest sign_input with
      | none => some (.error .OpenSSLError)
      | some hashout =>
        match P.ecdsaSign skey hashout with
        | none => some (.error .OpenSSLError)
        | some (r_vec, s_vec) =>
          if r_vec.length ≤ 32 ∧ s_vec.length ≤ 32 then
            some (.ok { header := header, payload := payload,
                        sign_input := sign_input,
                        signature := padLeft32 r_vec ++ padLeft32 s_vec })
          else none
    | .RS256 skey digest =>
      match P.rsaSign digest skey sign_input with
      | none => some (.error .OpenSSLError)
      | some signature =>
        some (.ok { header := header, payload := payload,
                    sign_input := sign_input, signature := signature })
    | .HS256 skey digest =>
      match P.hmacSign digest skey sign_input with
      | none => some (.error .OpenSSLError)
      | some signature =>
        some (.ok { header := header, payload := payload,
                    sign_input := sign_input, signature := signature })

/-- crypto.rs `JwsCompact::validate`: dispatch on the pair of validator
variant and header `alg`. -/
def JwsCompact.validate (self : JwsCompact) (P : CryptoProvider)
    (validator : JwsValidator) : Except JwtError JwsInner :=
  match validator, self.header.alg with
  | .ES256 pkey digest, .ES256 =>
      if self.signature.length ≠ 64 then .error .InvalidSignature
      else
        match P.hash digest self.sign_input with
        | none => .error .OpenSSLError
        | some hashout =>
          match P.ecdsaVerify pkey hashout (self.signature.take 32)
              ((self.signature.drop 32).take 32) with
          | none => .error .OpenSSLError
          | some true =>
              .ok { header := Header.ofProtected self.header,
                    payload := self.payload }
          | some false => .error .InvalidSignature
  | .RS256 pkey digest, .RS256 =>
      if self.signature.length < 256 then .error .InvalidSignature
      else
        match P.rsaVerify digest pkey self.sign_input self.signature with
        | none => .error .OpenSSLError
        | some true =>
            .ok { header := Header.ofProtected self.header,
                  payload := self.payload }
        | some false => .error .InvalidSignature
  | .HS256 skey digest, .HS256 =>
      match P.hmacSign digest skey self.sign_input with
      | none => .error .OpenSSLError
      | some ver_sig =>
          if self.signature = ver_sig then
            .ok { header := Header.ofProtected self.header,
                  payload := self.payload }
          else .error .InvalidSignature
  | _, _ => .error .ValidatorAlgMismatch

/-- crypto.rs `impl FromStr for JwsCompact`. -/
def JwsCompact.from_str (P : CryptoProvider) (s : Bytes) :
    Except JwtError JwsCompact :=
  let pieces := splitnDot 3 s
  match pieces.get? 0 with
  | none => .error .InvalidCompactFormat
  | some hdr_str =>
    match b64urlDecode hdr_str with
    | none => .error .InvalidBase64
    | some hdrBytes =>
      match P.jsonDecodeHeader hdrBytes with
      | none => .error .InvalidHeaderFormat
      | some header =>
        if critNonEmpty header.crit then .error .CriticalExtension
        else
          match pieces.get? 1 with
          | none => .error .InvalidCompactFormat
          | some payload_str =>
            match pieces.get? 2 with
            | none => .error .InvalidCompactFormat
            | some sig_str =>
              if (pieces.get? 3).isSome then .error .InvalidCompactFormat
              else
                match b64urlDecode payload_str with
                | none => .error .InvalidBase64
                | some payload =>
                  match b64urlDecode sig_str with
                  | none => .error .InvalidBase64
                  | some signature =>
                    match rsplitOnceDot s with
                    | none => .error .InvalidCompactFormat
                    | some (data_input, _) =>
                      .ok { header := header, payload := payload,
                            sign_input := data_input, signature := signature }

/-- crypto.rs `impl fmt::Display for JwsCompact`; `none` models
`fmt::Error` on a header serde failure. -/
def JwsCompact.to_string (self : JwsCompact) (P : CryptoProvider) :
    Option Bytes :=
  match P.jsonEncodeHeader self.header with
  | none => none
  | some hdrBytes =>
      some (b64urlEncode hdrBytes ++ 46 :: b64urlEncode self.payload ++
            46 :: b64urlEncode self.signature)

/-- crypto.rs `JwsSigner::get_validator`. -/
def JwsSigner.get_validator (self : JwsSigner) (P : CryptoProvider) :
    Except JwtError JwsValidator :=
  match self with
  | .ES256 skey digest =>
      match P.ecPublicOf skey with
      | none => .error .OpenSSLError
      | some pkey => .ok (.ES256 pkey digest)
  | .RS256 skey digest =>
      match P.rsaPublicOf skey with
      | none => .error .OpenSSLError
      | some pkey => .ok (.RS256 pkey digest)
  | .HS256 skey digest => .ok (.HS256 skey digest)

/-- crypto.rs `JwsSigner::private_key_to_der`. -/
def JwsSigner.private_key_to_der (self : JwsSigner) (P : CryptoProvider) :
    Except JwtError Bytes :=
  match self with
  | .ES256 skey _ =>
      match P.ecPrivateKeyToDer skey with
      | none => .error .OpenSSLError
      | some der => .ok der
  | .RS256 skey _ =>
      match P.rsaPrivateKeyToDer skey with
      | none => .error .OpenSSLError
      | some der => .ok der
  | .HS256 _ _ => .error .PrivateKeyDenied

/-- crypto.rs `JwsSigner::public_key_as_jwk`.  As in `sign_inner`, the outer
`Option` models the fixed-width-copy panic when an EC coordinate exceeds 32
bytes. -/
def JwsSigner.public_key_as_jwk (self : JwsSigner) (P : CryptoProvider)
    (kid : Option Bytes) : Option (Except JwtError Jwk) :=
  match self with
  | .ES256 skey _ =>
      match P.ecAffineCoordinates skey with
      | none => some (.error .OpenSSLError)
      | some (xbnv, ybnv) =>
          if xbnv.length ≤ 32 ∧ ybnv.length ≤ 32 then
            some (.ok (.EC .P256 (padLeft32 xbnv) (padLeft32 ybnv)
                  (some .ES256) (some .Sig) kid))
          else none
  | .RS256 skey _ =>
      match P.rsaPublicComponentsPadded skey with
      | none => some (.error .OpenSSLError)
      | some (n, e) =>
          some (.ok (.RSA n e (some .RS256) (some .Sig) kid))
  | .HS256 _ _ => some (.error .JwkPublicKeyDenied)

/-- The assumption on the collaborating cryptography that the round-trip
property rests on: the validator accepts the signature the object carries
over its own `sign_input`.  For HS256 nothing is assumed: validation
recomputes the very same MAC call, so determinism of the provider function
already closes the loop. -/
def VerifiesOwnSignature (P : CryptoProvider) (validator : JwsValidator)
    (jwsc : JwsCompact) : Prop :=
  match validator with
  | .ES256 pkey digest =>
      ∃ hashout, P.hash digest jwsc.sign_input = some hashout ∧
        P.ecdsaVerify pkey hashout (jwsc.signature.take 32)
          ((jwsc.signature.drop 32).take 32) = some true
  | .RS256 pkey digest =>
      256 ≤ jwsc.signature.length ∧
        P.rsaVerify digest pkey jwsc.sign_input jwsc.signature = some true
  | .HS256 _ _ => True

/-! ### Concrete material used by the witnesses -/

/-- A protected header whose optional fields are all absent. -/
def emptyHeader (alg : JwaAlg) : ProtectedHeader :=
  { alg := alg, jku := none, jwk := none, kid := none, crit := none,
    typ := none, cty := none, x5u := none, x5c := none, x5t := none,
    x5t_s256 := none }

def hdrES : ProtectedHeader := emptyHeader .ES256

def hdrRS : ProtectedHeader := emptyHeader .RS256

def hdrHS : ProtectedHeader := emptyHeader .HS256

/-- Header carrying a non-empty crit list, as parsed from
the JSON text holding alg ES256 and crit with the single entry exp. -/
def hdrCrit : ProtectedHeader := { emptyHeader .ES256 with crit := some [[101, 120, 112]] }

/-- Header carrying a present but empty crit list. -/
def hdrCritEmpty : ProtectedHeader := { emptyHeader .ES256 with crit := some [] }

/-- UTF-8 bytes of the JSON header text with the single field alg ES256. -/
def jsonES : Bytes :=
  [123, 34, 97, 108, 103, 34, 58, 34, 69, 83, 50, 53, 54, 34, 125]

/-- UTF-8 bytes of the JSON header text with alg ES256 and crit nonempty. -/
def jsonCrit : Bytes :=
  [123, 34, 97, 108, 103, 34, 58, 34, 69, 83, 50, 53, 54, 34, 44, 34, 99,
   114, 105, 116, 34, 58, 91, 34, 101, 120, 112, 34, 93, 125]

/-- UTF-8 bytes of the JSON header text with alg ES256 and crit empty. -/
def jsonCritEmpty : Bytes :=
  [123, 34, 97, 108, 103, 34, 58, 34, 69, 83, 50, 53, 54, 34, 44, 34, 99,
   114, 105, 116, 34, 58, 91, 93, 125]

/-- Trivial provider: every collaborator call fails.  Control paths that are
decided before any collaborator call behave identically under it. -/
def P0 : CryptoProvider where
  jsonEncodeHeader := fun _ => none
  jsonDecodeHeader := fun _ => none
  hash := fun _ _ => none
  ecdsaSign := fun _ _ => none
  ecdsaVerify := fun _ _ _ _ => none
  rsaSign := fun _ _ _ => none
  rsaVerify := fun _ _ _ _ => none
  hmacSign := fun _ _ _ => none
  ecPublicOf := fun _ => none
  rsaPublicOf := fun _ => none
  ecPrivateKeyToDer := fun _ => none
  rsaPrivateKeyToDer := fun _ => none
  ecAffineCoordinates := fun _ => none
  rsaPublicComponentsPadded := fun _ => none

/-- Provider whose JSON header codec is the table of the three concrete
header texts above, matching what serde_json produces on them. -/
def PJ : CryptoProvider :=
  { P0 with jsonDecodeHeader := fun b =>
      if b = jsonES then some hdrES
      else if b = jsonCrit then some hdrCrit
      else if b = jsonCritEmpty then some hdrCritEmpty
      else none }

/-- Provider for the ES256 signing witness: hashing and ECDSA signing
return fixed small values. -/
def PS : CryptoProvider :=
  { P0 with
      jsonEncodeHeader := fun _ => some [0],
      hash := fun _ _ => some [9],
      ecdsaSign := fun _ _ => some ([1], [2]) }

/-- Provider for the HS256 round-trip witness: the MAC is a fixed 32-byte
value and the header codec is a one-entry table. -/
def PW : CryptoProvider :=
  { P0 with
      jsonEncodeHeader := fun _ => some [123],
      jsonDecodeHeader := fun b => if b = [123] then some hdrHS else none,
      hmacSign := fun _ _ _ => some (List.replicate 32 7) }

/-- Compact text with two segments: header then the segment AA. -/
def sTwo : Bytes := b64urlEncode jsonES ++ 46 :: [65, 65]

/-- Compact text with four segments. -/
def sFour : Bytes :=
  b64urlEncode jsonES ++ 46 :: 65 :: 65 :: 46 :: 65 :: 65 :: 46 :: [65, 65]

/-- Compact text whose header carries a non-empty crit, followed by one
garbage segment. -/
def sCrit : Bytes := b64urlEncode jsonCrit ++ 46 :: [120]

/-- Well-formed three-segment compact text with an empty crit header. -/
def sCritEmpty : Bytes :=
  b64urlEncode jsonCritEmpty ++ 46 :: 65 :: 65 :: 46 :: [65, 65]

/-- Well-formed three-segment compact text with the plain ES256 header. -/
def sParse : Bytes := b64urlEncode jsonES ++ 46 :: 65 :: 65 :: 46 :: [65, 65]

def jwscES1 : JwsCompact :=
  { header := hdrES, payload := [], sign_input := [], signature := [] }

def valHS : JwsValidator := .HS256 [0] .sha256

def jwscES7 : JwsCompact :=
  { header := hdrES, payload := [], sign_input := [], signature := [1, 2, 3] }

def jwscRS7 : JwsCompact :=
  { header := hdrRS, payload := [], sign_input := [], signature := [] }

def innerW : JwsInner :=
  { header := { kid := none, typ := none, cty := none }, payload := [1, 2] }

def signerW : JwsSigner := .HS256 [9] .sha256

def valW : JwsValidator := .HS256 [9] .sha256

def jwscW : JwsCompact :=
  { header := hdrHS, payload := [1, 2],
    sign_input := b64urlEncode [123] ++ 46 :: b64urlEncode [1, 2],
    signature := List.replicate 32 7 }

def outW : Bytes :=
  b64urlEncode [123] ++ 46 :: b64urlEncode [1, 2] ++
    46 :: b64urlEncode (List.replicate 32 7)

def innerS : JwsInner :=
  { header := { kid := none, typ := none, cty := none }, payload := [3] }

def signerS : JwsSigner := .ES256 [5] .sha256

def jwscS : JwsCompact :=
  { header := hdrES, payload := [3],
    sign_input := b64urlEncode [0] ++ 46 :: b64urlEncode [3],
    signature := padLeft32 [1] ++ padLeft32 [2] }

/-- The object `from_str` produces on `sParse` under `PJ`. -/
def jwsc8 : JwsCompact :=
  { header := hdrES, payload := [0],
    sign_input := b64urlEncode jsonES ++ [46, 65, 65], signature := [0] }

/-! ### Lemmas about the base64url codec -/

theorem b64Char_ne_dot (n : Nat) : b64Char n ≠ 46 := by
  simp only [b64Char]
  split
  · omega
  · split
    · omega
    · split
      · omega
      · split <;> omega

theorem b64Val_b64Char : ∀ n, n < 64 → b64Val (b64Char n) = some n := by decide

theorem b64Val_dot : b64Val 46 = none := rfl

theorem dot_not_mem_b64urlEncode : ∀ bs : Bytes, 46 ∉ b64urlEncode bs
  | [] => by simp [b64urlEncode]
  | [a] => by
      simp only [b64urlEncode, List.mem_cons, List.not_mem_nil, or_false]
      push_neg
      exact ⟨fun h => b64Char_ne_dot _ h.symm, fun h => b64Char_ne_dot _ h.symm⟩
  | [a, b] => by
      simp only [b64urlEncode, List.mem_cons, List.not_mem_nil, or_false]
      push_neg
      refine ⟨?_, ?_, ?_⟩ <;> exact fun h => b64Char_ne_dot _ h.symm
  | a :: b :: c :: rest => by
      simp only [b64urlEncode, List.mem_cons]
      push_neg
      refine ⟨?_, ?_, ?_, ?_, dot_not_mem_b64urlEncode rest⟩ <;>
        exact fun h => b64Char_ne_dot _ h.symm

theorem b64urlDecode_encode :
    ∀ bs : Bytes, (∀ b ∈ bs, b < 256) →
      b64urlDecode (b64urlEncode bs) = some bs
  | [], _ => rfl
  | [a], h => by
      have ha : a < 256 := h a (by simp)
      show b64urlDecode [b64Char (a / 4), b64Char (a % 4 * 16)] = some [a]
      simp only [b64urlDecode, b64Val_b64Char (a / 4) (by omega),
        b64Val_b64Char (a % 4 * 16) (by omega)]
      rw [if_pos (by omega)]
      have : a / 4 * 4 + a % 4 * 16 / 16 = a := by omega
      rw [this]
  | [a, b], h => by
      have ha : a < 256 := h a (by simp)
      have hb : b < 256 := h b (by simp)
      show b64urlDecode [b64Char (a / 4), b64Char (a % 4 * 16 + b / 16),
        b64Char (b % 16 * 4)] = some [a, b]
      simp only [b64urlDecode, b64Val_b64Char (a / 4) (by omega),
        b64Val_b64Char (a % 4 * 16 + b / 16) (by omega),
        b64Val_b64Char (b % 16 * 4) (by omega)]
      rw [if_pos (by omega)]
      have h1 : a / 4 * 4 + (a % 4 * 16 + b / 16) / 16 = a := by omega
      have h2 : (a % 4 * 16 + b / 16) % 16 * 16 + b % 16 * 4 / 4 = b := by omega
      rw [h1, h2]
  | a :: b :: c :: rest, h => by
      have ha : a < 256 := h a (by simp)
      have hb : b < 256 := h b (by simp)
      have hc : c < 256 := h c (by simp)
      have hrest : ∀ x ∈ rest, x < 256 := fun x hx => h x (by simp [hx])
      show b64urlDecode (b64Char (a / 4) :: b64Char (a % 4 * 16 + b / 16) ::
        b64Char (b % 16 * 4 + c / 64) :: b64Char (c % 64) ::
        b64urlEncode rest) = some (a :: b :: c :: rest)
      rw [b64urlDecode]
      simp only [b64Val_b64Char (a / 4) (by omega),
        b64Val_b64Char (a % 4 * 16 + b / 16) (by omega),
        b64Val_b64Char (b % 16 * 4 + c / 64) (by omega),
        b64Val_b64Char (c % 64) (by omega),
        b64urlDecode_encode rest hrest]
      have h1 : a / 4 * 4 + (a % 4 * 16 + b / 16) / 16 = a := by omega
      have h2 : (a % 4 * 16 + b / 16) % 16 * 16 + (b % 16 * 4 + c / 64) / 4 = b := by
        omega
      have h3 : (b % 16 * 4 + c / 64) % 4 * 64 + c % 64 = c := by omega
      rw [h1, h2, h3]

theorem b64urlDecode_dot : ∀ s : Bytes, 46 ∈ s → b64urlDecode s = none
  | [], h => absurd h (List.not_mem_nil 46)
  | [_], _ => rfl
  | [c1, c2], h => by
      simp only [List.mem_cons, List.not_mem_nil, or_false] at h
      rcases h with h | h <;> rw [← h]
      · simp [b64urlDecode, b64Val_dot]
      · cases hv : b64Val c1 <;> simp [b64urlDecode, b64Val_dot, hv]
  | [c1, c2, c3], h => by
      simp only [List.mem_cons, List.not_mem_nil, or_false] at h
      rcases h with h | h | h <;> rw [← h] <;>
        cases hv1 : b64Val c1 <;> cases hv2 : b64Val c2 <;>
          simp [b64urlDecode, b64Val_dot, hv1, hv2]
  | c1 :: c2 :: c3 :: c4 :: rest, h => by
      simp only [List.mem_cons] at h
      rcases h with h | h | h | h | h
      · rw [← h]; simp [b64urlDecode, b64Val_dot]
      · rw [← h]
        cases hv1 : b64Val c1 <;> simp [b64urlDecode, b64Val_dot, hv1]
      · rw [← h]
        cases hv1 : b64Val c1 <;> cases hv2 : b64Val c2 <;>
          simp [b64urlDecode, b64Val_dot, hv1, hv2]
      · rw [← h]
        cases hv1 : b64Val c1 <;> cases hv2 : b64Val c2 <;>
          cases hv3 : b64Val c3 <;> simp [b64urlDecode, b64Val_dot, hv1, hv2, hv3]
      · cases hv1 : b64Val c1 <;> cases hv2 : b64Val c2 <;>
          cases hv3 : b64Val c3 <;> cases hv4 : b64Val c4 <;>
          simp [b64urlDecode, hv1, hv2, hv3, hv4, b64urlDecode_dot rest h]

/-! ### Lemmas about dots, splitn and rsplit_once -/

theorem dotCount_cons_dot (r : Bytes) : dotCount (46 :: r) = dotCount r + 1 := by
  simp [dotCount, Nat.add_comm]

theorem dotCount_cons_ne {c : Nat} (hc : c ≠ 46) (r : Bytes) :
    dotCount (c :: r) = dotCount r := by
  simp [dotCount, hc]

theorem not_mem_of_dotCount_zero : ∀ s : Bytes, dotCount s = 0 → 46 ∉ s
  | [], _ => List.not_mem_nil 46
  | c :: r, h => by
      by_cases hc : c = 46
      · rw [hc, dotCount_cons_dot] at h; omega
      · rw [dotCount_cons_ne hc] at h
        simp only [List.mem_cons, not_or]
        exact ⟨fun hh => hc hh.symm, not_mem_of_dotCount_zero r h⟩

theorem mem_of_dotCount_pos : ∀ s : Bytes, dotCount s ≠ 0 → 46 ∈ s
  | [], h => absurd rfl h
  | c :: r, h => by
      by_cases hc : c = 46
      · rw [hc]; exact List.mem_cons_self 46 r
      · rw [dotCount_cons_ne hc] at h
        exact List.mem_cons_of_mem c (mem_of_dotCount_pos r h)

theorem dotCount_zero_of_not_mem : ∀ s : Bytes, 46 ∉ s → dotCount s = 0
  | [], _ => rfl
  | c :: r, h => by
      simp only [List.mem_cons, not_or] at h
      rw [dotCount_cons_ne (fun hh => h.1 hh.symm)]
      exact dotCount_zero_of_not_mem r h.2

theorem sdo_zero : ∀ s : Bytes, dotCount s = 0 → splitDotOnce s = (s, none)
  | [], _ => rfl
  | c :: r, h => by
      by_cases hc : c = 46
      · rw [hc, dotCount_cons_dot] at h; omega
      · rw [dotCount_cons_ne hc] at h
        simp [splitDotOnce, hc, sdo_zero r h]

theorem sdo_pos : ∀ s : Bytes, dotCount s ≠ 0 →
    ∃ pre rest, splitDotOnce s = (pre, some rest) ∧ dotCount pre = 0 ∧
      dotCount rest = dotCount s - 1 ∧ s = pre ++ 46 :: rest
  | [], h => absurd rfl h
  | c :: r, h => by
      by_cases hc : c = 46
      · subst hc
        exact ⟨[], r, by simp [splitDotOnce], rfl, by rw [dotCount_cons_dot]; omega,
          rfl⟩
      · rw [dotCount_cons_ne hc] at h
        obtain ⟨pre, rest, hsdo, hpre, hcnt, heq⟩ := sdo_pos r h
        refine ⟨c :: pre, rest, ?_, ?_, ?_, ?_⟩
        · simp [splitDotOnce, hc, hsdo]
        · rw [dotCount_cons_ne hc]; exact hpre
        · rw [dotCount_cons_ne hc]; exact hcnt
        · rw [List.cons_append, ← heq]

theorem sdo_append : ∀ (pre rest : Bytes), dotCount pre = 0 →
    splitDotOnce (pre ++ 46 :: rest) = (pre, some rest)
  | [], rest, _ => by simp [splitDotOnce]
  | c :: p, rest, h => by
      have hc : c ≠ 46 := by
        intro hh; rw [hh, dotCount_cons_dot] at h; omega
      rw [dotCount_cons_ne hc] at h
      simp [splitDotOnce, hc, sdo_append p rest h]

theorem splitn3_zero (s : Bytes) (h : dotCount s = 0) : splitnDot 3 s = [s] := by
  show splitnDot (1 + 2) s = [s]
  rw [splitnDot, sdo_zero s h]

theorem splitn3_one (s : Bytes) (h : dotCount s = 1) :
    ∃ p1 p2, splitnDot 3 s = [p1, p2] ∧ dotCount p1 = 0 ∧ dotCount p2 = 0 ∧
      s = p1 ++ 46 :: p2 := by
  obtain ⟨pre, rest, hsdo, hpre, hcnt, heq⟩ := sdo_pos s (by omega)
  rw [h] at hcnt
  refine ⟨pre, rest, ?_, hpre, by omega, heq⟩
  show splitnDot (1 + 2) s = _
  rw [splitnDot, hsdo]
  show pre :: splitnDot (0 + 2) rest = _
  rw [splitnDot, sdo_zero rest (by omega)]

theorem splitn3_many (s : Bytes) (h : 2 ≤ dotCount s) :
    ∃ p1 p2 p3, splitnDot 3 s = [p1, p2, p3] ∧ dotCount p1 = 0 ∧
      dotCount p2 = 0 ∧ dotCount p3 = dotCount s - 2 ∧
      s = p1 ++ 46 :: p2 ++ 46 :: p3 := by
  obtain ⟨p1, r1, hs1, hp1, hc1, he1⟩ := sdo_pos s (by omega)
  obtain ⟨p2, r2, hs2, hp2, hc2, he2⟩ := sdo_pos r1 (by omega)
  refine ⟨p1, p2, r2, ?_, hp1, hp2, by omega, by rw [he1, he2]; simp⟩
  show splitnDot (1 + 2) s = _
  rw [splitnDot, hs1]
  show p1 :: splitnDot (0 + 2) r1 = _
  rw [splitnDot, hs2]
  rfl

theorem splitn3_ne_nil (s : Bytes) : splitnDot 3 s ≠ [] := by
  show splitnDot (1 + 2) s ≠ []
  rw [splitnDot]
  rcases hs : splitDotOnce s with ⟨pre, post⟩
  cases post <;> simp

theorem hdrPart_get (s : Bytes) : (splitnDot 3 s).get? 0 = some (hdrPart s) := by
  rcases hs : splitnDot 3 s with _ | ⟨p, t⟩
  · exact absurd hs (splitn3_ne_nil s)
  · simp [hdrPart, hs]

theorem rsplit_zero : ∀ s : Bytes, dotCount s = 0 → rsplitOnceDot s = none
  | [], _ => rfl
  | c :: r, h => by
      have hc : c ≠ 46 := by
        intro hh; rw [hh, dotCount_cons_dot] at h; omega
      rw [dotCount_cons_ne hc] at h
      simp [rsplitOnceDot, rsplit_zero r h, hc]

theorem rsplit_none_count : ∀ s : Bytes, rsplitOnceDot s = none → dotCount s = 0
  | [], _ => rfl
  | c :: r, h => by
      simp only [rsplitOnceDot] at h
      rcases hr : rsplitOnceDot r with _ | ⟨pre, post⟩
      · rw [hr] at h
        by_cases hc : c = 46
        · rw [if_pos hc] at h; cases h
        · rw [dotCount_cons_ne hc]
          exact rsplit_none_count r hr
      · rw [hr] at h; cases h

theorem rsplit_append : ∀ (pre post : Bytes), dotCount post = 0 →
    rsplitOnceDot (pre ++ 46 :: post) = some (pre, post)
  | [], post, h => by
      simp [rsplitOnceDot, rsplit_zero post h]
  | c :: p, post, h => by
      simp [rsplitOnceDot, rsplit_append p post h]

theorem rsplit_spec : ∀ (s pre post : Bytes),
    rsplitOnceDot s = some (pre, post) →
    s = pre ++ 46 :: post ∧ dotCount post = 0
  | [], pre, post, h => by cases h
  | c :: r, pre, post, h => by
      simp only [rsplitOnceDot] at h
      rcases hr : rsplitOnceDot r with _ | ⟨p, q⟩
      · rw [hr] at h
        by_cases hc : c = 46
        · rw [if_pos hc] at h
          simp only [Option.some.injEq, Prod.mk.injEq] at h
          obtain ⟨h1, h2⟩ := h
          subst h1; subst h2; subst hc
          exact ⟨rfl, rsplit_none_count r hr⟩
        · rw [if_neg hc] at h; cases h
      · rw [hr] at h
        simp only [Option.some.injEq, Prod.mk.injEq] at h
        obtain ⟨h1, h2⟩ := h
        obtain ⟨hs, hq⟩ := rsplit_spec r p q hr
        subst h2
        rw [← h1, hs]
        exact ⟨rfl, hq⟩

theorem padLeft32_length {v : Bytes} (h : v.length ≤ 32) :
    (padLeft32 v).length = 32 := by
  simp [padLeft32]
  omega

/-! ### The claims -/

/-- C1: for every `JwsCompact` and every `JwsValidator`, if the validator
variant and the header `alg` are not the same algorithm family, `validate`
fails with `ValidatorAlgMismatch` — for every provider, so no cryptographic
call is ever consulted and no fallback to another family can occur. -/
theorem claim1_validator_alg_mismatch (P : CryptoProvider) (jwsc : JwsCompact)
    (v : JwsValidator) (h : v.variantAlg ≠ jwsc.header.alg) :
    jwsc.validate P v = .error .ValidatorAlgMismatch := by
  cases v <;> cases hA : jwsc.header.alg <;>
    simp_all [JwsCompact.validate, JwsValidator.variantAlg]

/-- C1 witness: an ES256-headed object checked with an HS256 validator. -/
theorem claim1_witness :
    JwsCompact.validate jwscES1 P0 valHS = .error .ValidatorAlgMismatch :=
  claim1_validator_alg_mismatch P0 jwscES1 valHS (by decide)

/-- C7: with a same-family validator, an ES256 signature whose length is not
64, or an RS256 signature whose length is under 256, is rejected with
`InvalidSignature` for every provider, hence before any cryptographic
verification. -/
theorem claim7_sig_length_guard (P : CryptoProvider) (jwsc : JwsCompact)
    (pkeyE pkeyR : Bytes) (dE dR : MessageDigest) :
    (jwsc.header.alg = .ES256 → jwsc.signature.length ≠ 64 →
      jwsc.validate P (.ES256 pkeyE dE) = .error .InvalidSignature) ∧
    (jwsc.header.alg = .RS256 → jwsc.signature.length < 256 →
      jwsc.validate P (.RS256 pkeyR dR) = .error .InvalidSignature) := by
  constructor
  · intro hA hlen
    simp [JwsCompact.validate, hA, hlen]
  · intro hA hlen
    simp [JwsCompact.validate, hA, hlen]

/-- C7 witness: a 3-byte ES256 signature and a 0-byte RS256 signature are
both rejected under the provider whose every call fails. -/
theorem claim7_witness :
    JwsCompact.validate jwscES7 P0 (.ES256 [0] .sha256) =
        .error .InvalidSignature ∧
    JwsCompact.validate jwscRS7 P0 (.RS256 [0] .sha256) =
        .error .InvalidSignature :=
  ⟨(claim7_sig_length_guard P0 jwscES7 [0] [0] .sha256 .sha256).1 rfl
      (by decide),
   (claim7_sig_length_guard P0 jwscRS7 [0] [0] .sha256 .sha256).2 rfl
      (by decide)⟩

/-- C9: on the HS256 signer variant, `private_key_to_der` always fails with
`PrivateKeyDenied` and `public_key_as_jwk` always fails with
`JwkPublicKeyDenied`, for every provider, key and kid. -/
theorem claim9_hs256_export_denied (P : CryptoProvider) (k : Bytes)
    (d : MessageDigest) (kid : Option Bytes) :
    JwsSigner.private_key_to_der (.HS256 k d) P = .error .PrivateKeyDenied ∧
    JwsSigner.public_key_as_jwk (.HS256 k d) P kid =
      some (.error .JwkPublicKeyDenied) :=
  ⟨rfl, rfl⟩

/-- C2: the ten error kinds the spec lists are exactly the ones crypto.rs
uses, but the enum declared in error.rs carries only seven of them: the
three Denied kinds that `private_key_to_der`, `public_key_as_jwk` and
`get_x5c_pubkey` return are not declared there, so the sources contradict
each other (the crate as given does not even compile). -/
theorem claim2_error_enum_mismatch :
    (JwsSigner.private_key_to_der (.HS256 [0] .sha256) P0 =
        .error .PrivateKeyDenied ∧
      declaredInErrorRs .PrivateKeyDenied = false) ∧
    (JwsSigner.public_key_as_jwk (.HS256 [0] .sha256) P0 none =
        some (.error .JwkPublicKeyDenied) ∧
      declaredInErrorRs .JwkPublicKeyDenied = false) ∧
    specErrorKinds.length = 10 ∧ errorRsVariants.length = 7 ∧
    (∀ v ∈ errorRsVariants, v ∈ specErrorKinds) ∧
    (∀ v ∈ cryptoRsErrorVariantsUsed, v ∈ specErrorKinds) ∧
    (∀ v ∈ specErrorKinds, v ∈ cryptoRsErrorVariantsUsed) ∧
    "PrivateKeyDenied" ∉ errorRsVariants ∧
    "JwkPublicKeyDenied" ∉ errorRsVariants ∧
    "X5cPublicKeyDenied" ∉ errorRsVariants := by
  refine ⟨⟨rfl, rfl⟩, ⟨rfl, rfl⟩, rfl, rfl, ?_, ?_, ?_, ?_, ?_, ?_⟩ <;> decide

/-- C5: whenever the first dot-separated piece of the input base64url-decodes
to bytes the JSON codec parses into a header whose `crit` is present and
non-empty, `from_str` fails with `CriticalExtension` — whatever the
algorithm and whatever the remaining segments hold. -/
theorem claim5_crit_nonempty_rejected (P : CryptoProvider) (s bytes : Bytes)
    (hdr : ProtectedHeader) (c : List Bytes)
    (h1 : b64urlDecode (hdrPart s) = some bytes)
    (h2 : P.jsonDecodeHeader bytes = some hdr)
    (h3 : hdr.crit = some c) (h4 : c ≠ []) :
    JwsCompact.from_str P s = .error .CriticalExtension := by
  have hcrit : critNonEmpty hdr.crit = true := by
    rw [h3]
    cases c with
    | nil => exact absurd rfl h4
    | cons a t => rfl
  simp only [JwsCompact.from_str, hdrPart_get s, h1, h2, hcrit, if_true]

/-- C5 witness: a token whose header carries crit with one entry, followed
by a garbage second segment, is rejected with `CriticalExtension`. -/
theorem claim5_witness :
    JwsCompact.from_str PJ sCrit = .error .CriticalExtension :=
  claim5_crit_nonempty_rejected PJ sCrit jsonCrit hdrCrit [[101, 120, 112]]
    rfl rfl rfl (by simp)

/-- C10: when the decoded header carries `crit` as a present but empty
array, `from_str` never fails with `CriticalExtension`: the gate rejects
only non-empty arrays. -/
theorem claim10_crit_empty_not_rejected (P : CryptoProvider) (s bytes : Bytes)
    (hdr : ProtectedHeader)
    (h1 : b64urlDecode (hdrPart s) = some bytes)
    (h2 : P.jsonDecodeHeader bytes = some hdr)
    (h3 : hdr.crit = some []) :
    JwsCompact.from_str P s ≠ .error .CriticalExtension := by
  have hcrit : critNonEmpty hdr.crit = false := by rw [h3]; rfl
  intro hEq
  simp only [JwsCompact.from_str, hdrPart_get s, h1, h2, hcrit,
    Bool.false_eq_true, if_false] at hEq
  repeat' split at hEq
  all_goals simp at hEq

/-- C10 witness: a fully parseable token with an empty crit array parses
without a `CriticalExtension` failure. -/
theorem claim10_witness :
    JwsCompact.from_str PJ sCritEmpty ≠ .error .CriticalExtension :=
  claim10_crit_empty_not_rejected PJ sCritEmpty jsonCritEmpty hdrCritEmpty
    rfl rfl rfl

/-- C8: whenever `from_str` succeeds, the `sign_input` field is the verbatim
prefix of the input preceding the final dot: the input is exactly
`sign_input`, one dot, and a dot-free tail. -/
theorem claim8_sign_input_verbatim (P : CryptoProvider) (s : Bytes)
    (jwsc : JwsCompact) (h : JwsCompact.from_str P s = .ok jwsc) :
    ∃ tail, s = jwsc.sign_input ++ 46 :: tail ∧ 46 ∉ tail := by
  simp only [JwsCompact.from_str] at h
  repeat' split at h
  all_goals injection h
  rename_i data_input snd hrsplit hEq
  subst hEq
  obtain ⟨hs, hz⟩ := rsplit_spec s data_input snd hrsplit
  exact ⟨snd, by simpa using hs, not_mem_of_dotCount_zero snd hz⟩

/-- C8 witness: parsing the concrete three-segment token recovers its
text up to the last dot as `sign_input`. -/
theorem claim8_witness :
    ∃ tail, sParse = jwsc8.sign_input ++ 46 :: tail ∧ 46 ∉ tail :=
  claim8_sign_input_verbatim PJ sParse jwsc8 rfl

/-- C6: every signature produced by the ES256 arm of `sign_inner` is exactly
64 bytes: the provider's big-endian component bytes for r and s (each at
most 32 bytes, or the code panics instead of returning), each zero-padded on
the left to exactly 32 bytes. -/
theorem claim6_es256_fixed_width (P : CryptoProvider) (inner : JwsInner)
    (skey : Bytes) (d : MessageDigest) (jku : Option Bytes) (jwk : Option Jwk)
    (jwsc : JwsCompact)
    (h : inner.sign_inner P (.ES256 skey d) jku jwk = some (.ok jwsc)) :
    jwsc.signature.length = 64 ∧
    ∃ r_vec s_vec hashout,
      P.hash d jwsc.sign_input = some hashout ∧
      P.ecdsaSign skey hashout = some (r_vec, s_vec) ∧
      r_vec.length ≤ 32 ∧ s_vec.length ≤ 32 ∧
      jwsc.signature = padLeft32 r_vec ++ padLeft32 s_vec := by
  simp only [JwsInner.sign_inner] at h
  repeat' split at h
  all_goals try injection h with h
  all_goals injection h
  rename_i xh hashout hhash xe r_vec s_vec hsign hlen hEq
  subst hEq
  constructor
  · show (padLeft32 r_vec ++ padLeft32 s_vec).length = 64
    rw [List.length_append, padLeft32_length hlen.1, padLeft32_length hlen.2]
  · exact ⟨r_vec, s_vec, hashout, hhash, hsign, hlen.1, hlen.2, rfl⟩

/-- C6 witness: a concrete ES256 signing run under the provider `PS`. -/
theorem claim6_witness :
    jwscS.signature.length = 64 ∧
    ∃ r_vec s_vec hashout,
      PS.hash .sha256 jwscS.sign_input = some hashout ∧
      PS.ecdsaSign [5] hashout = some (r_vec, s_vec) ∧
      r_vec.length ≤ 32 ∧ s_vec.length ≤ 32 ∧
      jwscS.signature = padLeft32 r_vec ++ padLeft32 s_vec :=
  claim6_es256_fixed_width PS innerS [5] .sha256 none none jwscS rfl

/-- C3 counterexample: a four-segment token (with a realistic ES256 header)
is rejected by `from_str` with `InvalidBase64`, not `InvalidCompactFormat`:
`splitn(3, '.')` leaves the extra dot inside the third piece, which then
fails base64url decoding. -/
theorem claim3_counterexample :
    segCount sFour = 4 ∧
    JwsCompact.from_str PJ sFour = .error .InvalidBase64 ∧
    JwsCompact.from_str PJ sFour ≠ .error .InvalidCompactFormat := by
  refine ⟨rfl, rfl, ?_⟩
  intro hEq
  rw [show JwsCompact.from_str PJ sFour = .error .InvalidBase64 from rfl]
    at hEq
  simp at hEq

/-- C3 amended: on every input whose dot-separated segment count is not 3,
`from_str` always fails; when there are fewer than 3 segments and the header
stage succeeds the failure is `InvalidCompactFormat` (earlier header-stage
failures surface as their own kinds); when there are more than 3 segments
the failure is never `InvalidCompactFormat` — the extra dots stay inside the
third piece and the failure surfaces as `InvalidBase64` (or an earlier
header-stage kind). -/
theorem claim3_amended (P : CryptoProvider) (s : Bytes)
    (hne : segCount s ≠ 3) :
    (∀ jwsc, JwsCompact.from_str P s ≠ .ok jwsc) ∧
    (4 ≤ segCount s →
      JwsCompact.from_str P s ≠ .error .InvalidCompactFormat) ∧
    (segCount s ≤ 2 →
      ∀ bytes hdr, b64urlDecode (hdrPart s) = some bytes →
        P.jsonDecodeHeader bytes = some hdr →
        critNonEmpty hdr.crit = false →
        JwsCompact.from_str P s = .error .InvalidCompactFormat) := by
  by_cases h0 : dotCount s = 0
  · have hpieces := splitn3_zero s h0
    have hpart : hdrPart s = s := by simp [hdrPart, hpieces]
    refine ⟨?_, ?_, ?_⟩
    · intro jwsc hEq
      simp only [JwsCompact.from_str, hpieces, List.get?] at hEq
      repeat' split at hEq
      all_goals injection hEq
    · intro h4
      simp only [segCount, h0] at h4
      omega
    · intro _ bytes hdr hB hJ hC
      rw [hpart] at hB
      simp only [JwsCompact.from_str, hpieces, List.get?, hB, hJ, hC,
        Bool.false_eq_true, if_false]
  · by_cases h1 : dotCount s = 1
    · obtain ⟨p1, p2, hpieces, hp1, hp2, heq⟩ := splitn3_one s h1
      have hpart : hdrPart s = p1 := by simp [hdrPart, hpieces]
      refine ⟨?_, ?_, ?_⟩
      · intro jwsc hEq
        simp only [JwsCompact.from_str, hpieces, List.get?] at hEq
        repeat' split at hEq
        all_goals injection hEq
      · intro h4
        simp only [segCount, h1] at h4
        omega
      · intro _ bytes hdr hB hJ hC
        rw [hpart] at hB
        simp only [JwsCompact.from_str, hpieces, List.get?, hB, hJ, hC,
          Bool.false_eq_true, if_false]
    · have h3 : 3 ≤ dotCount s := by
        simp only [segCount] at hne
        omega
      obtain ⟨p1, p2, p3, hpieces, hp1, hp2, hc3, heq⟩ :=
        splitn3_many s (by omega)
      have hdec3 : b64urlDecode p3 = none :=
        b64urlDecode_dot p3 (mem_of_dotCount_pos p3 (by omega))
      have hout : JwsCompact.from_str P s = .error .InvalidBase64 ∨
          JwsCompact.from_str P s = .error .InvalidHeaderFormat ∨
          JwsCompact.from_str P s = .error .CriticalExtension := by
        cases hb : b64urlDecode p1 with
        | none =>
            left
            simp only [JwsCompact.from_str, hpieces, List.get?, hb]
        | some bs =>
          cases hj : P.jsonDecodeHeader bs with
          | none =>
              right; left
              simp only [JwsCompact.from_str, hpieces, List.get?, hb, hj]
          | some hdr =>
            cases hcr : critNonEmpty hdr.crit with
            | true =>
                right; right
                simp only [JwsCompact.from_str, hpieces, List.get?, hb, hj,
                  hcr, if_true]
            | false =>
              left
              cases hpd : b64urlDecode p2 with
              | none =>
                  simp only [JwsCompact.from_str, hpieces, List.get?, hb, hj,
                    hcr, Bool.false_eq_true, if_false, Option.isSome_none,
                    hpd]
              | some pl =>
                  simp only [JwsCompact.from_str, hpieces, List.get?, hb, hj,
                    hcr, Bool.false_eq_true, if_false, Option.isSome_none,
                    hpd, hdec3]
      refine ⟨?_, ?_, ?_⟩
      · intro jwsc hEq
        rcases hout with h | h | h <;> rw [h] at hEq <;> cases hEq
      · intro _ hEq
        rcases hout with h | h | h <;> rw [h] at hEq <;> simp at hEq
      · intro hle
        exact absurd hle (by simp only [segCount]; omega)

/-- C3 amended witness: the two-segment token under the realistic header
table. -/
theorem claim3_amended_witness :
    (∀ jwsc, JwsCompact.from_str PJ sTwo ≠ .ok jwsc) ∧
    (4 ≤ segCount sTwo →
      JwsCompact.from_str PJ sTwo ≠ .error .InvalidCompactFormat) ∧
    (segCount sTwo ≤ 2 →
      ∀ bytes hdr, b64urlDecode (hdrPart sTwo) = some bytes →
        PJ.jsonDecodeHeader bytes = some hdr →
        critNonEmpty hdr.crit = false →
        JwsCompact.from_str PJ sTwo = .error .InvalidCompactFormat) :=
  claim3_amended PJ sTwo (by decide)

/-- Parsing a three-segment text assembled from base64url-encoded header
bytes, payload and signature recovers the decoded header, the payload and
signature bytes, and takes `sign_input` verbatim up to the last dot. -/
theorem from_str_of_encoded (P : CryptoProvider)
    (hdrBytes payload sigBytes : Bytes) (header : ProtectedHeader)
    (hdec : P.jsonDecodeHeader hdrBytes = some header)
    (hcrit : critNonEmpty header.crit = false)
    (h256h : ∀ b ∈ hdrBytes, b < 256)
    (h256p : ∀ b ∈ payload, b < 256)
    (h256s : ∀ b ∈ sigBytes, b < 256) :
    JwsCompact.from_str P
        (b64urlEncode hdrBytes ++ 46 :: b64urlEncode payload ++
          46 :: b64urlEncode sigBytes) =
      .ok { header := header, payload := payload,
            sign_input :=
              b64urlEncode hdrBytes ++ 46 :: b64urlEncode payload,
            signature := sigBytes } := by
  have hz1 : dotCount (b64urlEncode hdrBytes) = 0 :=
    dotCount_zero_of_not_mem _ (dot_not_mem_b64urlEncode hdrBytes)
  have hz2 : dotCount (b64urlEncode payload) = 0 :=
    dotCount_zero_of_not_mem _ (dot_not_mem_b64urlEncode payload)
  have hz3 : dotCount (b64urlEncode sigBytes) = 0 :=
    dotCount_zero_of_not_mem _ (dot_not_mem_b64urlEncode sigBytes)
  have hshape : b64urlEncode hdrBytes ++ 46 :: b64urlEncode payload ++
      46 :: b64urlEncode sigBytes =
      b64urlEncode hdrBytes ++
        46 :: (b64urlEncode payload ++ 46 :: b64urlEncode sigBytes) := by
    simp
  have hpieces : splitnDot 3 (b64urlEncode hdrBytes ++
      46 :: b64urlEncode payload ++ 46 :: b64urlEncode sigBytes) =
      [b64urlEncode hdrBytes, b64urlEncode payload, b64urlEncode sigBytes] := by
    rw [hshape]
    show splitnDot (1 + 2) _ = _
    rw [splitnDot, sdo_append _ _ hz1]
    show _ :: splitnDot (0 + 2) _ = _
    rw [splitnDot, sdo_append _ _ hz2]
    rfl
  have hrsplit : rsplitOnceDot (b64urlEncode hdrBytes ++
      46 :: b64urlEncode payload ++ 46 :: b64urlEncode sigBytes) =
      some (b64urlEncode hdrBytes ++ 46 :: b64urlEncode payload,
        b64urlEncode sigBytes) := by
    have hshape2 : b64urlEncode hdrBytes ++ 46 :: b64urlEncode payload ++
        46 :: b64urlEncode sigBytes =
        (b64urlEncode hdrBytes ++ 46 :: b64urlEncode payload) ++
          46 :: b64urlEncode sigBytes := by
      simp
    rw [hshape2]
    exact rsplit_append _ _ hz3
  simp only [JwsCompact.from_str, hpieces, List.get?,
    b64urlDecode_encode hdrBytes h256h, hdec, hcrit, Bool.false_eq_true,
    if_false, Option.isSome_none, b64urlDecode_encode payload h256p,
    b64urlDecode_encode sigBytes h256s, hrsplit]

/-- C4: for every algorithm family, signing a payload, serializing the
result, parsing it back and validating with the validator derived from the
same signer succeeds and returns the original payload bytes unchanged —
granted the collaborator assumptions the spec takes for granted: the JSON
header codec round-trips the produced header to bytes under 256, the input
payload is bytes, the signature bytes are bytes, and the asymmetric verify
primitive accepts the signature produced over the same input. -/
theorem claim4_roundtrip (P : CryptoProvider) (inner : JwsInner)
    (signer : JwsSigner) (jku : Option Bytes) (jwk : Option Jwk)
    (jwsc : JwsCompact) (validator : JwsValidator) (out : Bytes)
    (hsign : inner.sign_inner P signer jku jwk = some (.ok jwsc))
    (hval : signer.get_validator P = .ok validator)
    (hout : jwsc.to_string P = some out)
    (hjson : ∀ bytes, P.jsonEncodeHeader jwsc.header = some bytes →
      P.jsonDecodeHeader bytes = some jwsc.header ∧ ∀ b ∈ bytes, b < 256)
    (hpay : ∀ b ∈ inner.payload, b < 256)
    (hsig : ∀ b ∈ jwsc.signature, b < 256)
    (hverify : VerifiesOwnSignature P validator jwsc) :
    ∃ parsed released, JwsCompact.from_str P out = .ok parsed ∧
      parsed.validate P validator = .ok released ∧
      released.payload = inner.payload := by
  cases signer with
  | HS256 skey d =>
    simp only [JwsInner.sign_inner] at hsign
    repeat' split at hsign
    all_goals try injection hsign with hsign
    all_goals injection hsign
    rename_i xh hdrBytes henc xm w hmac hEq
    subst hEq
    simp only [JwsSigner.get_validator] at hval
    injection hval with hval
    subst hval
    simp only [JwsCompact.to_string] at hout
    rw [henc] at hout
    injection hout with hout
    subst hout
    obtain ⟨hdec, h256h⟩ := hjson hdrBytes henc
    have hparse := from_str_of_encoded P hdrBytes inner.payload w _ hdec rfl
      h256h hpay hsig
    refine ⟨_, _, hparse, ?_, rfl⟩
    simp [JwsCompact.validate, hmac]
    rfl
  | ES256 skey d =>
    simp only [JwsInner.sign_inner] at hsign
    repeat' split at hsign
    all_goals try injection hsign with hsign
    all_goals injection hsign
    rename_i xh hashout hhash xe r_vec s_vec hes hlen hEq
    subst hEq
    rename_i xj hdrBytes henc
    simp only [JwsSigner.get_validator] at hval
    split at hval
    · injection hval
    · rename_i pkey hpk
      injection hval with hval
      subst hval
      simp only [JwsCompact.to_string] at hout
      rw [henc] at hout
      injection hout with hout
      subst hout
      obtain ⟨hdec, h256h⟩ := hjson hdrBytes henc
      obtain ⟨h2, hh2, hv2⟩ := hverify
      have hparse := from_str_of_encoded P hdrBytes inner.payload
        (padLeft32 r_vec ++ padLeft32 s_vec) _ hdec rfl h256h hpay hsig
      refine ⟨_, _, hparse, ?_, rfl⟩
      have hlen64 : (padLeft32 r_vec ++ padLeft32 s_vec).length = 64 := by
        rw [List.length_append, padLeft32_length hlen.1,
          padLeft32_length hlen.2]
      simp only [JwsCompact.validate, hlen64, hh2, hv2]
      simp
      rfl
  | RS256 skey d =>
    simp only [JwsInner.sign_inner] at hsign
    repeat' split at hsign
    all_goals try injection hsign with hsign
    all_goals injection hsign
    rename_i xh w hrsa hEq
    subst hEq
    rename_i xj hdrBytes henc
    simp only [JwsSigner.get_validator] at hval
    split at hval
    · injection hval
    · rename_i pkey hpk
      injection hval with hval
      subst hval
      simp only [JwsCompact.to_string] at hout
      rw [henc] at hout
      injection hout with hout
      subst hout
      obtain ⟨hdec, h256h⟩ := hjson hdrBytes henc
      obtain ⟨hge, hv2⟩ := hverify
      have hparse := from_str_of_encoded P hdrBytes inner.payload w _ hdec
        rfl h256h hpay hsig
      refine ⟨_, _, hparse, ?_, rfl⟩
      have hge2 : 256 ≤ List.length w := hge
      simp only [JwsCompact.validate, hv2]
      rw [if_neg (by omega)]
      simp
      rfl

/-- C4 witness: a concrete HS256 round trip under the provider `PW`:
sign, serialize, parse back, validate, and recover the payload. -/
theorem claim4_witness :
    ∃ parsed released, JwsCompact.from_str PW outW = .ok parsed ∧
      parsed.validate PW valW = .ok released ∧
      released.payload = innerW.payload :=
  claim4_roundtrip PW innerW signerW none none jwscW valW outW rfl rfl rfl
    (fun bytes hb => by
      have hb2 : some ([123] : Bytes) = some bytes := hb
      injection hb2 with hb2
      subst hb2
      exact ⟨rfl, by decide⟩)
    (by decide) (by decide) trivial
